import Mathlib

/-!
Verification development for the wayback timeline API route of the
alpinesight repository (`app/api/wayback/route.ts`).

The route is `async` JavaScript.  The embedding below is a shallow one:

* machine numbers are `Nat`/`Int` (epoch milliseconds, HTTP statuses, tile
  indices) or `JSDec`, an exact-decimal representation of the parsed query
  numbers; IEEE rounding is idealized away, and the transcendental float
  math of the tile resolver is idealized over `ℝ` (`latLngToTile`), with
  its runtime evaluation lifted to the `tileOf` oracle of `GET`;
* the network is an oracle: a tile fetch attempt is a value of
  `Except String JSResponse` (a rejected promise is `.error`, a resolved
  response carries an HTTP status and the body bytes);
* the cooperative single-threaded scheduling of the worker pool is lifted to
  an explicit small-step machine (`PoolState`, `poolStep`) driven by an
  adversarial schedule: a schedule entry names the worker whose pending
  fetch resolves next.  Between two suspension points JS code runs
  atomically, so the per-completion bookkeeping of the source is a fold
  over the completion order recorded by the machine;
* `Buffer.from(buf).toString('base64')` is the standard RFC 4648 base64
  encoding with padding, modelled by `b64encode`.
-/

/-- Bytes of a fetched tile body (each entry is a byte, i.e. `< 256`). -/
abbrev Bytes := List Nat

/-- A resolved HTTP response, as seen by `fetchWithRetry`. -/
structure JSResponse where
  status : Nat
  body : Bytes
deriving Repr, DecidableEq

/-- `resp.ok` of the Fetch API: status in the inclusive range 200..299. -/
def respOk (r : JSResponse) : Bool :=
  200 ≤ r.status && r.status ≤ 299

/-- One fetch attempt either resolves with a response or rejects
(network failure), in which case the rejection message is recorded. -/
abbrev AttemptResult := Except String JSResponse

/-- An attempt counts as a failure when the promise rejects or the
response has a non-2xx status (the source throws on `!resp.ok`). -/
def attemptFails : AttemptResult → Bool
  | .error _ => true
  | .ok r => !respOk r

/-- Observable outcome of `fetchWithRetry`: the returned value
(`none` models the `null` return), the backoff waits performed
(in milliseconds, in order), and how many attempts were made. -/
structure RetryTrace where
  result : Option Bytes
  waits : List Nat
  attemptsUsed : Nat
deriving Repr, DecidableEq

/-- The loop body of `fetchWithRetry` from the source:

```
for (let i = 1; i <= attempts; i++) {
  try {
    const resp = await fetch(url, { cache: 'no-store' });
    if (!resp.ok) throw new Error(`HTTP ${resp.status}`);
    return await resp.arrayBuffer();
  } catch (err) {
    if (i === attempts) return null;
    await new Promise(r => setTimeout(r, delayMs * i));
  }
}
return null;
```

`net i` is the oracle outcome of attempt number `i`; `fuel` bounds the
remaining iterations (`fetchWithRetry` supplies `fuel := attempts`, enough
for the whole loop). -/
def fetchAttempts (net : Nat → AttemptResult) (attempts delayMs : Nat) :
    Nat → Nat → RetryTrace
  | _, 0 => ⟨none, [], 0⟩
  | i, fuel + 1 =>
    let failStep : RetryTrace :=
      if i = attempts then ⟨none, [], 1⟩
      else
        let t := fetchAttempts net attempts delayMs (i + 1) fuel
        ⟨t.result, delayMs * i :: t.waits, t.attemptsUsed + 1⟩
    match net i with
    | .ok r => if respOk r then ⟨some r.body, [], 1⟩ else failStep
    | .error _ => failStep

/-- `fetchWithRetry(url, attempts = 3, delayMs = 250)`; the `url` is
implicit in the attempt oracle `net`. -/
def fetchWithRetry (net : Nat → AttemptResult) (attempts delayMs : Nat) :
    RetryTrace :=
  fetchAttempts net attempts delayMs 1 attempts

/-- The number of attempts made never exceeds the fuel. -/
theorem fetchAttempts_attemptsUsed_le (net : Nat → AttemptResult)
    (attempts delayMs : Nat) :
    ∀ i fuel, (fetchAttempts net attempts delayMs i fuel).attemptsUsed ≤ fuel := by
  intro i fuel
  induction fuel generalizing i with
  | zero => simp [fetchAttempts]
  | succ fuel ih =>
    simp only [fetchAttempts]
    cases h : net i with
    | ok r =>
      by_cases hok : respOk r
      · simp [hok]
      · by_cases hi : i = attempts <;> simp [hok, hi]
        exact ih (i + 1)
    | error e =>
      by_cases hi : i = attempts <;> simp [hi]
      exact ih (i + 1)

/-- Any bytes returned by the retry loop are the body of some response
the oracle actually produced with a 2xx status. -/
theorem fetchAttempts_result_provenance (net : Nat → AttemptResult)
    (attempts delayMs : Nat) :
    ∀ i fuel b, (fetchAttempts net attempts delayMs i fuel).result = some b →
      ∃ j r, net j = .ok r ∧ respOk r = true ∧ r.body = b := by
  intro i fuel
  induction fuel generalizing i with
  | zero => simp [fetchAttempts]
  | succ fuel ih =>
    intro b hb
    simp only [fetchAttempts] at hb
    cases h : net i with
    | ok r =>
      rw [h] at hb
      by_cases hok : respOk r
      · simp [hok] at hb
        exact ⟨i, r, h, hok, hb⟩
      · simp [hok] at hb
        by_cases hi : i = attempts
        · simp [hi] at hb
        · simp [hi] at hb
          exact ih (i + 1) b hb
    | error e =>
      rw [h] at hb
      by_cases hi : i = attempts
      · simp [hi] at hb
      · simp [hi] at hb
        exact ih (i + 1) b hb

/-! ## Base64 (`Buffer.from(buf).toString('base64')`) -/

/-- The RFC 4648 base64 alphabet, as a function on sextet values. -/
def b64Tbl (n : Nat) : Char :=
  if n < 26 then Char.ofNat (65 + n)
  else if n < 52 then Char.ofNat (97 + (n - 26))
  else if n < 62 then Char.ofNat (48 + (n - 52))
  else if n = 62 then '+' else '/'

/-- Inverse of the base64 alphabet (arbitrary on non-alphabet chars). -/
def b64TblInv (c : Char) : Nat :=
  if 65 ≤ c.toNat ∧ c.toNat ≤ 90 then c.toNat - 65
  else if 97 ≤ c.toNat ∧ c.toNat ≤ 122 then c.toNat - 97 + 26
  else if 48 ≤ c.toNat ∧ c.toNat ≤ 57 then c.toNat - 48 + 52
  else if c = '+' then 62 else 63

theorem b64TblInv_b64Tbl_fin : ∀ n : Fin 64, b64TblInv (b64Tbl n.val) = n.val := by
  decide

theorem b64Tbl_ne_pad_fin : ∀ n : Fin 64, b64Tbl n.val ≠ '=' := by
  decide

theorem b64TblInv_b64Tbl (n : Nat) (h : n < 64) : b64TblInv (b64Tbl n) = n :=
  b64TblInv_b64Tbl_fin ⟨n, h⟩

theorem b64Tbl_ne_pad (n : Nat) (h : n < 64) : b64Tbl n ≠ '=' :=
  b64Tbl_ne_pad_fin ⟨n, h⟩

/-- Base64 encoding of a byte list into characters: bytes are consumed
three at a time; a final group of one or two bytes is padded with `=`. -/
def b64chars : Bytes → List Char
  | [] => []
  | [a] => [b64Tbl (a / 4), b64Tbl (a % 4 * 16), '=', '=']
  | [a, b] => [b64Tbl (a / 4), b64Tbl (a % 4 * 16 + b / 16), b64Tbl (b % 16 * 4), '=']
  | a :: b :: c :: rest =>
    b64Tbl (a / 4) :: b64Tbl (a % 4 * 16 + b / 16) ::
      b64Tbl (b % 16 * 4 + c / 64) :: b64Tbl (c % 64) :: b64chars rest

/-- `Buffer.from(buf).toString('base64')`. -/
def b64encode (bs : Bytes) : String :=
  String.mk (b64chars bs)

/-- Base64 decoding (used only to establish that encoding is injective). -/
def b64decode : List Char → Bytes
  | c1 :: c2 :: c3 :: c4 :: rest =>
    if c3 = '=' then [b64TblInv c1 * 4 + b64TblInv c2 / 16]
    else if c4 = '=' then
      [b64TblInv c1 * 4 + b64TblInv c2 / 16,
       b64TblInv c2 % 16 * 16 + b64TblInv c3 / 4]
    else
      (b64TblInv c1 * 4 + b64TblInv c2 / 16) ::
        (b64TblInv c2 % 16 * 16 + b64TblInv c3 / 4) ::
        (b64TblInv c3 % 4 * 64 + b64TblInv c4) :: b64decode rest
  | _ => []

/-- All entries of a byte list are actual bytes. -/
def ValidBytes (bs : Bytes) : Prop := ∀ x ∈ bs, x < 256

theorem b64decode_pad2 (c1 c2 : Char) :
    b64decode [c1, c2, '=', '='] = [b64TblInv c1 * 4 + b64TblInv c2 / 16] := by
  simp [b64decode]

theorem b64decode_pad1 (c1 c2 c3 : Char) (h3 : c3 ≠ '=') :
    b64decode [c1, c2, c3, '='] =
      [b64TblInv c1 * 4 + b64TblInv c2 / 16,
       b64TblInv c2 % 16 * 16 + b64TblInv c3 / 4] := by
  simp [b64decode, h3]

theorem b64decode_group (c1 c2 c3 c4 : Char) (rest : List Char)
    (h3 : c3 ≠ '=') (h4 : c4 ≠ '=') :
    b64decode (c1 :: c2 :: c3 :: c4 :: rest) =
      (b64TblInv c1 * 4 + b64TblInv c2 / 16) ::
        (b64TblInv c2 % 16 * 16 + b64TblInv c3 / 4) ::
        (b64TblInv c3 % 4 * 64 + b64TblInv c4) :: b64decode rest := by
  simp [b64decode, h3, h4]

theorem b64decode_b64chars : ∀ bs : Bytes, ValidBytes bs → b64decode (b64chars bs) = bs := by
  intro bs
  induction bs using b64chars.induct with
  | case1 => intro _; rfl
  | case2 a =>
    intro hv
    have ha : a < 256 := hv a (by simp)
    rw [show b64chars [a] = [b64Tbl (a / 4), b64Tbl (a % 4 * 16), '=', '='] from rfl]
    rw [b64decode_pad2]
    rw [b64TblInv_b64Tbl (a / 4) (by omega), b64TblInv_b64Tbl (a % 4 * 16) (by omega)]
    have h1 : a / 4 * 4 + a % 4 * 16 / 16 = a := by omega
    rw [h1]
  | case3 a b =>
    intro hv
    have ha : a < 256 := hv a (by simp)
    have hb : b < 256 := hv b (by simp)
    rw [show b64chars [a, b] =
      [b64Tbl (a / 4), b64Tbl (a % 4 * 16 + b / 16), b64Tbl (b % 16 * 4), '='] from rfl]
    rw [b64decode_pad1 _ _ _ (b64Tbl_ne_pad (b % 16 * 4) (by omega))]
    rw [b64TblInv_b64Tbl (a / 4) (by omega),
      b64TblInv_b64Tbl (a % 4 * 16 + b / 16) (by omega),
      b64TblInv_b64Tbl (b % 16 * 4) (by omega)]
    have h1 : a / 4 * 4 + (a % 4 * 16 + b / 16) / 16 = a := by omega
    have h2 : (a % 4 * 16 + b / 16) % 16 * 16 + b % 16 * 4 / 4 = b := by omega
    rw [h1, h2]
  | case4 a b c rest ih =>
    intro hv
    have ha : a < 256 := hv a (by simp)
    have hb : b < 256 := hv b (by simp)
    have hc : c < 256 := hv c (by simp)
    have hrest : ValidBytes rest := by
      intro x hx
      exact hv x (by simp [hx])
    rw [show b64chars (a :: b :: c :: rest) =
      b64Tbl (a / 4) :: b64Tbl (a % 4 * 16 + b / 16) ::
        b64Tbl (b % 16 * 4 + c / 64) :: b64Tbl (c % 64) :: b64chars rest from rfl]
    rw [b64decode_group _ _ _ _ _ (b64Tbl_ne_pad (b % 16 * 4 + c / 64) (by omega))
      (b64Tbl_ne_pad (c % 64) (by omega))]
    rw [b64TblInv_b64Tbl (a / 4) (by omega),
      b64TblInv_b64Tbl (a % 4 * 16 + b / 16) (by omega),
      b64TblInv_b64Tbl (b % 16 * 4 + c / 64) (by omega),
      b64TblInv_b64Tbl (c % 64) (by omega)]
    have h1 : a / 4 * 4 + (a % 4 * 16 + b / 16) / 16 = a := by omega
    have h2 : (a % 4 * 16 + b / 16) % 16 * 16 + (b % 16 * 4 + c / 64) / 4 = b := by omega
    have h3 : (b % 16 * 4 + c / 64) % 4 * 64 + c % 64 = c := by omega
    rw [h1, h2, h3, ih hrest]

/-- Base64 encoding is injective on byte lists: the dedup key
`Buffer.from(buf).toString('base64')` identifies the bytes exactly. -/
theorem b64encode_injective {b1 b2 : Bytes} (h1 : ValidBytes b1) (h2 : ValidBytes b2)
    (h : b64encode b1 = b64encode b2) : b1 = b2 := by
  have hchars : b64chars b1 = b64chars b2 := by
    have := congrArg String.data h
    simpa [b64encode] using this
  calc b1 = b64decode (b64chars b1) := (b64decode_b64chars b1 h1).symm
    _ = b64decode (b64chars b2) := by rw [hchars]
    _ = b2 := b64decode_b64chars b2 h2

/-! ## The timeline data model and the deduplicating worker pool -/

/-- One candidate/retained timeline entry, as built in the route's
`timelineRaw` map (field names follow the JSON keys of the response). -/
structure TItem where
  releaseNum : Int
  releaseDate : String
  releaseDatetime : Int
  title : String
  tileUrl : String
  provider : String
deriving Repr, DecidableEq

/-- The remote tile server: for a URL and an attempt number, the outcome
of that fetch attempt. -/
abbrev Network := String → Nat → AttemptResult

/-- `fetchWithRetry(current.tileUrl)` with the source defaults
(`attempts = 3`, `delayMs = 250`): the value the worker binds to `buf`. -/
def tileFetchResult (net : Network) (it : TItem) : Option Bytes :=
  (fetchWithRetry (net it.tileUrl) 3 250).result

/-- The shared mutable collections of `dedupeTimelineByImage`:
`uniqueImageHashes` (a `Set<string>`, kept in insertion order),
`uniqueItems`, and `errors` (entries are `(url, error)` pairs). -/
structure DedupState where
  hashes : List String
  items : List TItem
  errors : List (String × String)
deriving Repr, DecidableEq

/-- The body of the worker loop, run atomically when the fetch for `it`
completes:

```
const buf = await fetchWithRetry(current.tileUrl);
if (!buf) { errors.push({ url: current.tileUrl, error: 'fetch-failed' }); continue; }
const b64 = Buffer.from(buf).toString('base64');
if (!uniqueImageHashes.has(b64)) { uniqueImageHashes.add(b64); uniqueItems.push(current); }
```
-/
def processItem (net : Network) (s : DedupState) (it : TItem) : DedupState :=
  match tileFetchResult net it with
  | none => ⟨s.hashes, s.items, s.errors ++ [(it.tileUrl, "fetch-failed")]⟩
  | some buf =>
    let b64 := b64encode buf
    if b64 ∈ s.hashes then s
    else ⟨s.hashes ++ [b64], s.items ++ [it], s.errors⟩

/-- Folding the worker-loop body over the order in which tile fetches
complete.  Since the JS runtime is single threaded, the interleaved
updates of the shared collections are exactly this fold. -/
def processAll (net : Network) (order : List TItem) : DedupState :=
  order.foldl (processItem net) ⟨[], [], []⟩

/-- State of the worker pool of `dedupeTimelineByImage`:
`pending` are the candidates not yet claimed through the shared cursor
(`index`), `workers` holds for each of the `concurrency` workers the
candidate whose fetch it is awaiting (`none` once the worker returned),
and `processed` records the candidates in completion order. -/
structure PoolState where
  pending : List TItem
  workers : List (Option TItem)
  processed : List TItem
deriving Repr, DecidableEq

/-- Pool start: `Array.from({length: concurrency}, () => worker())` runs
each worker synchronously up to its first `await`, so worker `k` claims
candidate `k` (when available) before worker `k + 1` starts. -/
def initPool (concurrency : Nat) (raw : List TItem) : PoolState :=
  ⟨raw.drop concurrency, (List.range concurrency).map (fun k => raw[k]?), []⟩

/-- One scheduler step: the fetch awaited by worker `w` resolves.  The
worker records its candidate as processed, then (atomically) re-checks
the shared cursor: it claims the next pending candidate, or returns if
the list is exhausted.  Choosing an idle or out-of-range worker is a
no-op. -/
def poolStep (s : PoolState) (w : Nat) : PoolState :=
  match s.workers[w]? with
  | some (some it) =>
    match s.pending with
    | [] => ⟨[], s.workers.set w none, s.processed ++ [it]⟩
    | nxt :: rest => ⟨rest, s.workers.set w (some nxt), s.processed ++ [it]⟩
  | _ => s

/-- Every pool state reached along a schedule (the initial state first). -/
def poolStates (concurrency : Nat) (raw : List TItem) (sched : List Nat) : List PoolState :=
  sched.scanl poolStep (initPool concurrency raw)

/-- The pool state after running a whole schedule. -/
def poolRun (concurrency : Nat) (raw : List TItem) (sched : List Nat) : PoolState :=
  sched.foldl poolStep (initPool concurrency raw)

/-- Number of tile fetches in flight: workers currently awaiting a fetch. -/
def inFlight (s : PoolState) : Nat :=
  s.workers.countP Option.isSome

/-- All workers have returned (the `Promise.all(workers)` join fired). -/
def completed (s : PoolState) : Bool :=
  s.workers.all Option.isNone

/-- The comparator of the final sort,
`(a, b) => new Date(a.releaseDatetime).getTime() - new Date(b.releaseDatetime).getTime()`,
as the ordering it induces (for epoch-millisecond numbers `getTime` is
the identity). -/
def rdLeRel : TItem → TItem → Prop := fun a b => a.releaseDatetime ≤ b.releaseDatetime

instance : DecidableRel rdLeRel := fun a b => Int.decLe a.releaseDatetime b.releaseDatetime

instance : IsTotal TItem rdLeRel := ⟨fun a b => Int.le_total a.releaseDatetime b.releaseDatetime⟩

instance : IsTrans TItem rdLeRel := ⟨fun _ _ _ h1 h2 => le_trans h1 h2⟩

/-- `dedupeTimelineByImage(timelineRaw, concurrency)`: run the worker
pool under the scheduler choices `sched`, fold the dedup bookkeeping
over the resulting completion order, and sort the unique survivors with
`uniqueItems.sort(comparator)`.  `Array.prototype.sort` is a stable
sort consistent with the comparator, which determines its output
uniquely; it is modelled by the stable `List.insertionSort`.
Returns `(uniqueItems, errors)`. -/
def dedupeTimelineByImage (net : Network) (timelineRaw : List TItem)
    (concurrency : Nat) (sched : List Nat) : List TItem × List (String × String) :=
  let fin := poolRun concurrency timelineRaw sched
  let st := processAll net fin.processed
  (st.items.insertionSort rdLeRel, st.errors)

/-! ## URL materialization (`item.itemURL.replace(...)`) -/

/-- JS `String.prototype.replace` with a string pattern: replace the
leftmost occurrence of `pat` (none of the replacement strings used by
the route contain `$` patterns), or return the string unchanged when
`pat` does not occur. -/
def replaceOnce (pat rep : List Char) : List Char → List Char
  | [] => if pat = [] then rep else []
  | c :: rest =>
    if pat.isPrefixOf (c :: rest) then rep ++ (c :: rest).drop pat.length
    else c :: replaceOnce pat rep rest

/-- String wrapper for `replaceOnce`. -/
def jsReplace (s pat rep : String) : String :=
  String.mk (replaceOnce pat.data rep.data s.data)

/-- The route's template substitution:

```
const tileUrl = item.itemURL
  .replace("{level}", tileCoords.z.toString())
  .replace("{row}", tileCoords.y.toString())
  .replace("{col}", tileCoords.x.toString());
```

`tc` is `(x, y, z)`. -/
def materializeUrl (template : String) (tc : Int × Int × Int) : String :=
  jsReplace (jsReplace (jsReplace template "{level}" (toString tc.2.2))
    "{row}" (toString tc.2.1)) "{col}" (toString tc.1)

/-- One catalog entry as returned by the wayback catalog client
(`@esri/wayback-core`), with the fields the route reads. -/
structure WaybackItem where
  releaseNum : Int
  releaseDateLabel : String
  releaseDatetime : Int
  itemTitle : String
  itemURL : String
  layerIdentifier : String
deriving Repr, DecidableEq

/-- The element mapping of the route's `timelineRaw` construction. -/
def toCandidate (tc : Int × Int × Int) (it : WaybackItem) : TItem :=
  ⟨it.releaseNum, it.releaseDateLabel, it.releaseDatetime, it.itemTitle,
    materializeUrl it.itemURL tc, it.layerIdentifier⟩

/-! ## Request parsing and the GET handler -/

/-- Value of a run of decimal digit characters. -/
def digitsVal (cs : List Char) : Nat :=
  cs.foldl (fun acc c => acc * 10 + (c.toNat - 48)) 0

/-- A parsed decimal number, kept exactly as `mant / 10 ^ scale`
(the representation a decimal parse produces; never re-normalized, so
it is determined by the parsed digits). -/
structure JSDec where
  mant : Int
  scale : Nat
deriving Repr, DecidableEq

/-- Modelled from JS `parseFloat` (an external runtime builtin) on the
grammar the route's inputs use: optional sign, then decimal digits with
an optional fractional part, parsed as a prefix of the string; `none`
models `NaN` (no number could be parsed).  Exponents, `Infinity` and
leading whitespace are outside the modelled grammar. -/
def jsParseFloat (s : String) : Option JSDec :=
  let signRest : Int × List Char :=
    match s.data with
    | '-' :: r => (-1, r)
    | '+' :: r => (1, r)
    | r => (1, r)
  let intPart := signRest.2.takeWhile Char.isDigit
  let rest2 := signRest.2.dropWhile Char.isDigit
  let fracPart : List Char :=
    match rest2 with
    | '.' :: r2 => r2.takeWhile Char.isDigit
    | _ => []
  if intPart = [] ∧ fracPart = [] then none
  else some ⟨signRest.1 * ((digitsVal intPart : Int) * (10 : Int) ^ fracPart.length +
    (digitsVal fracPart : Int)), fracPart.length⟩

/-- Modelled from JS `parseInt` (an external runtime builtin) on the
same restricted grammar: optional sign and a run of decimal digits;
`none` models `NaN`. -/
def jsParseInt (s : String) : Option Int :=
  let signRest : Int × List Char :=
    match s.data with
    | '-' :: r => (-1, r)
    | '+' :: r => (1, r)
    | r => (1, r)
  let ds := signRest.2.takeWhile Char.isDigit
  if ds = [] then none else some (signRest.1 * (digitsVal ds : Int))

/-- `searchParams.get(name) || dflt`: `get` yields `null` when the
parameter is absent, and the empty string is falsy. -/
def jsOr (o : Option String) (dflt : String) : String :=
  match o with
  | none => dflt
  | some s => if s = "" then dflt else s

/-- JS falsiness of a parsed number: `NaN` (here `none`) and `0` are
falsy. -/
def jsFalsy (v : Option JSDec) : Bool :=
  match v with
  | none => true
  | some q => q.mant == 0

/-- The JSON body of a route response: either an error object or the
success payload `{location, zoom, tileCoords, count, timeline, errors}`. -/
inductive RBody where
  | errorBody (msg : String)
  | okBody (location : JSDec × JSDec) (zoom : Option Int) (tileCoords : Int × Int × Int)
      (count : Nat) (timeline : List TItem) (errors : List (String × String))
deriving Repr, DecidableEq

/-- An HTTP response of the route: status code and JSON body. -/
structure HResponse where
  status : Nat
  body : RBody
deriving Repr, DecidableEq

/-- Catalog selection: `mode === "all" ? getWaybackItems() :
getWaybackItemsWithLocalChanges(...)`.  Both catalog calls are external
collaborators, so their outcomes (`.ok` items or a thrown error) are
oracle inputs. -/
def wayback (mode : String)
    (catalogAll catalogLocal : Except String (List WaybackItem)) :
    Except String (List WaybackItem) :=
  if mode = "all" then catalogAll else catalogLocal

/-- The route's `GET` handler.  Oracle inputs beyond the query
parameters: the two catalog outcomes, the floating-point evaluation of
`latLngToTile` (`tileOf`; its idealized real-number semantics is
`latLngToTile` below), the tile network, and the scheduler choices of
the worker pool.  Mirrors the source control flow: validate, fetch the
catalog (500 on a thrown error), resolve tile coordinates, materialize
URLs, dedupe with concurrency 8, respond. -/
def GET (latP lngP zoomP modeP : Option String)
    (catalogAll catalogLocal : Except String (List WaybackItem))
    (tileOf : JSDec → JSDec → Option Int → Int × Int × Int)
    (net : Network) (sched : List Nat) : HResponse :=
  let lat := jsParseFloat (jsOr latP "0")
  let lng := jsParseFloat (jsOr lngP "0")
  let zoom := jsParseInt (jsOr zoomP "15")
  let mode := jsOr modeP "all"
  if jsFalsy lat || jsFalsy lng then
    ⟨400, .errorBody "Missing latitude or longitude"⟩
  else
    match wayback mode catalogAll catalogLocal with
    | .error _ => ⟨500, .errorBody "Failed to fetch wayback imagery"⟩
    | .ok waybackItems =>
      let tileCoords := tileOf (lat.getD ⟨0, 0⟩) (lng.getD ⟨0, 0⟩) zoom
      let timelineRaw := waybackItems.map (toCandidate tileCoords)
      let r := dedupeTimelineByImage net timelineRaw 8 sched
      ⟨200, .okBody (lat.getD ⟨0, 0⟩, lng.getD ⟨0, 0⟩) zoom tileCoords r.1.length r.1 r.2⟩

/-! ## The tile coordinate resolver -/

/-- `latLngToTile` from the source, with JS float arithmetic idealized
as real arithmetic:

```
const latRad = (lat * Math.PI) / 180;
const n = Math.pow(2, zoom);
const xTile = Math.floor(n * ((lng + 180) / 360));
const yTile = Math.floor(
  (n * (1 - Math.log(Math.tan(latRad) + 1 / Math.cos(latRad)) / Math.PI)) / 2
);
return { x: xTile, y: yTile, z: zoom };
```
-/
noncomputable def latLngToTile (lat lng : ℝ) (zoom : Int) : Int × Int × Int :=
  let latRad := lat * Real.pi / 180
  let n : ℝ := 2 ^ zoom
  (⌊n * ((lng + 180) / 360)⌋,
   ⌊n * (1 - Real.log (Real.tan latRad + 1 / Real.cos latRad) / Real.pi) / 2⌋,
   zoom)

/-- The resolver output as the claim words it: `x = floor(2^zoom *
(lng + 180) / 360)`, `y = floor(2^zoom * (1 - log(tan(latRad) +
1/cos(latRad)) / pi) / 2)` with `latRad` the latitude in radians, and
`z = zoom`. -/
noncomputable def resolverClaimed (lat lng : ℝ) (zoom : Int) : Int × Int × Int :=
  (⌊(2 : ℝ) ^ zoom * (lng + 180) / 360⌋,
   ⌊(2 : ℝ) ^ zoom *
      (1 - Real.log (Real.tan (lat * Real.pi / 180) + 1 / Real.cos (lat * Real.pi / 180))
        / Real.pi) / 2⌋,
   zoom)

/-! ## Spec-side characterization of the deduplicator -/

/-- Spec-side description of the deduplicator (from the claim wording):
walk the successfully fetched candidates in completion order and keep a
candidate exactly when its raw byte content has not been seen before. -/
def keepFirstByBytes (seen : List Bytes) : List (TItem × Bytes) → List TItem
  | [] => []
  | (it, b) :: rest =>
    if b ∈ seen then keepFirstByBytes seen rest
    else it :: keepFirstByBytes (seen ++ [b]) rest

/-- The successfully fetched candidates, in completion order, paired
with their fetched bytes. -/
def fetchedSuccesses (net : Network) (order : List TItem) : List (TItem × Bytes) :=
  order.filterMap (fun it => (tileFetchResult net it).map (fun b => (it, b)))

/-- The network only ever hands out byte-valued bodies. -/
def ValidNet (net : Network) : Prop :=
  ∀ url i r, net url i = .ok r → ValidBytes r.body

theorem tileFetchResult_valid {net : Network} (hnet : ValidNet net) (it : TItem)
    {b : Bytes} (hb : tileFetchResult net it = some b) : ValidBytes b := by
  obtain ⟨j, r, hr, _, hbody⟩ :=
    fetchAttempts_result_provenance (net it.tileUrl) 3 250 1 3 b hb
  exact hbody ▸ hnet it.tileUrl j r hr

theorem mem_map_b64encode_iff {b : Bytes} {seen : List Bytes}
    (hb : ValidBytes b) (hseen : ∀ x ∈ seen, ValidBytes x) :
    b64encode b ∈ seen.map b64encode ↔ b ∈ seen := by
  constructor
  · intro h
    obtain ⟨x, hx, hxe⟩ := List.mem_map.mp h
    exact (b64encode_injective (hseen x hx) hb hxe) ▸ hx
  · intro h
    exact List.mem_map.mpr ⟨b, h, rfl⟩

theorem processAll_items_go (net : Network) (hnet : ValidNet net) :
    ∀ (order : List TItem) (seen : List Bytes) (items : List TItem)
      (errs : List (String × String)),
      (∀ x ∈ seen, ValidBytes x) →
      (order.foldl (processItem net) ⟨seen.map b64encode, items, errs⟩).items =
        items ++ keepFirstByBytes seen (fetchedSuccesses net order) := by
  intro order
  induction order with
  | nil =>
    intro seen items errs _
    simp [fetchedSuccesses, keepFirstByBytes]
  | cons it rest ih =>
    intro seen items errs hseen
    rw [List.foldl_cons]
    cases hfetch : tileFetchResult net it with
    | none =>
      rw [show processItem net ⟨seen.map b64encode, items, errs⟩ it =
        ⟨seen.map b64encode, items, errs ++ [(it.tileUrl, "fetch-failed")]⟩ from by
          simp [processItem, hfetch]]
      rw [ih seen items _ hseen]
      simp [fetchedSuccesses, hfetch]
    | some b =>
      have hbval : ValidBytes b := tileFetchResult_valid hnet it hfetch
      by_cases hmem : b ∈ seen
      · rw [show processItem net ⟨seen.map b64encode, items, errs⟩ it =
          ⟨seen.map b64encode, items, errs⟩ from by
            simp [processItem, hfetch,
              (mem_map_b64encode_iff hbval hseen).mpr hmem]]
        rw [ih seen items errs hseen]
        simp [fetchedSuccesses, hfetch, keepFirstByBytes, hmem]
      · have hnotmem : b64encode b ∉ seen.map b64encode := fun hc =>
          hmem ((mem_map_b64encode_iff hbval hseen).mp hc)
        rw [show processItem net ⟨seen.map b64encode, items, errs⟩ it =
          ⟨seen.map b64encode ++ [b64encode b], items ++ [it], errs⟩ from by
            simp [processItem, hfetch, hnotmem]]
        rw [show seen.map b64encode ++ [b64encode b] = (seen ++ [b]).map b64encode from by
          simp]
        have hseen2 : ∀ x ∈ seen ++ [b], ValidBytes x := by
          intro x hx
          rcases List.mem_append.mp hx with hx | hx
          · exact hseen x hx
          · simp at hx
            exact hx ▸ hbval
        rw [ih (seen ++ [b]) (items ++ [it]) errs hseen2]
        simp [fetchedSuccesses, hfetch, keepFirstByBytes, hmem]

/-- **C1.** The deduplicator retains exactly one timeline item per
distinct fetched byte content: folding the worker bookkeeping (whose
set key is the base64 encoding of the raw tile bytes) over any
completion order yields exactly the first candidate, in completion
order, for each distinct byte content; every later candidate with the
same bytes is discarded, independently of any of its metadata
(in particular its release date). -/
theorem dedup_retains_first_per_byte_content (net : Network) (hnet : ValidNet net)
    (order : List TItem) :
    (processAll net order).items = keepFirstByBytes [] (fetchedSuccesses net order) := by
  have h := processAll_items_go net hnet order [] [] [] (by intro x hx; cases hx)
  simpa [processAll] using h

/-- Concrete instantiation of C1: two candidates whose tiles download
to the same bytes collapse to the first one, a third distinct tile is
kept. -/
def c1ItemA : TItem := ⟨1, "2020-01-01", 100, "A", "ua", "p"⟩

def c1ItemB : TItem := ⟨2, "2021-01-01", 200, "B", "ub", "p"⟩

def c1ItemC : TItem := ⟨3, "2022-01-01", 300, "C", "uc", "p"⟩

def c1Net : Network := fun url _ =>
  if url = "uc" then .ok ⟨200, [9, 9, 9]⟩ else .ok ⟨200, [1, 2, 3]⟩

theorem dedup_retains_first_per_byte_content_witness :
    ValidNet c1Net ∧
      (processAll c1Net [c1ItemA, c1ItemB, c1ItemC]).items =
        keepFirstByBytes [] (fetchedSuccesses c1Net [c1ItemA, c1ItemB, c1ItemC]) := by
  have hnet : ValidNet c1Net := by
    intro url i r hr
    by_cases hu : url = "uc" <;>
      simp [c1Net, hu] at hr <;>
      rw [← hr] <;>
      intro x hx <;>
      simp at hx <;>
      omega
  exact ⟨hnet, dedup_retains_first_per_byte_content c1Net hnet [c1ItemA, c1ItemB, c1ItemC]⟩

/-! ## C2: chronological ordering of the response timeline -/

theorem dedupe_timeline_pairwise (net : Network) (raw : List TItem)
    (c : Nat) (sched : List Nat) :
    List.Pairwise (fun a b : TItem => a.releaseDatetime ≤ b.releaseDatetime)
      (dedupeTimelineByImage net raw c sched).1 :=
  List.sorted_insertionSort rdLeRel
    ((processAll net (poolRun c raw sched).processed).items)

/-- **C2.** Every successful (200) response carries a timeline sorted
ascending by `releaseDatetime`: each adjacent pair of timeline entries
is ordered. -/
theorem timeline_sorted_of_success
    (latP lngP zoomP modeP : Option String)
    (catalogAll catalogLocal : Except String (List WaybackItem))
    (tileOf : JSDec → JSDec → Option Int → Int × Int × Int)
    (net : Network) (sched : List Nat)
    (loc : JSDec × JSDec) (zoom : Option Int) (tc : Int × Int × Int) (count : Nat)
    (tl : List TItem) (errs : List (String × String))
    (h : GET latP lngP zoomP modeP catalogAll catalogLocal tileOf net sched =
      ⟨200, .okBody loc zoom tc count tl errs⟩) :
    ∀ i (hi : i + 1 < tl.length),
      (tl.get ⟨i, by omega⟩).releaseDatetime ≤ (tl.get ⟨i + 1, hi⟩).releaseDatetime := by
  have htl : List.Pairwise
      (fun a b : TItem => a.releaseDatetime ≤ b.releaseDatetime) tl := by
    simp only [GET] at h
    split at h
    · cases h
    · split at h
      · cases h
      · rename_i waybackItems heq
        have hbody := congrArg HResponse.body h
        simp only at hbody
        cases hbody
        exact dedupe_timeline_pairwise net _ 8 sched
  intro i hi
  exact (List.pairwise_iff_get.mp htl) ⟨i, by omega⟩ ⟨i + 1, hi⟩ (by simp)

def tileZero : JSDec → JSDec → Option Int → Int × Int × Int := fun _ _ _ => (0, 0, 0)

def c2WbA : WaybackItem := ⟨1, "d1", 500, "A", "a", "p"⟩

def c2WbB : WaybackItem := ⟨2, "d2", 300, "B", "b", "p"⟩

def c2Net : Network := fun url _ =>
  if url = "a" then .ok ⟨200, [1]⟩ else .ok ⟨200, [2]⟩

def c2TA : TItem := toCandidate (0, 0, 0) c2WbA

def c2TB : TItem := toCandidate (0, 0, 0) c2WbB

theorem timeline_sorted_of_success_witness :
    GET (some "1") (some "1") none none (.ok [c2WbA, c2WbB]) (.ok [])
        tileZero c2Net [0, 1] =
      ⟨200, .okBody (⟨1, 0⟩, ⟨1, 0⟩) (some 15) (0, 0, 0) 2 [c2TB, c2TA] []⟩ ∧
    c2TB.releaseDatetime ≤ c2TA.releaseDatetime := by
  have h : GET (some "1") (some "1") none none (.ok [c2WbA, c2WbB]) (.ok [])
      tileZero c2Net [0, 1] =
      ⟨200, .okBody (⟨1, 0⟩, ⟨1, 0⟩) (some 15) (0, 0, 0) 2 [c2TB, c2TA] []⟩ := by rfl
  exact ⟨h, timeline_sorted_of_success (some "1") (some "1") none none
    (.ok [c2WbA, c2WbB]) (.ok []) tileZero c2Net [0, 1]
    (⟨1, 0⟩, ⟨1, 0⟩) (some 15) (0, 0, 0) 2 [c2TB, c2TA] [] h 0 (by decide)⟩

/-! ## C3: tie-breaking of the final sort -/

def c3WbA : WaybackItem := ⟨1, "d", 300, "A", "a", "p"⟩

def c3WbB : WaybackItem := ⟨2, "d", 300, "B", "b", "p"⟩

def c3Net : Network := fun url _ =>
  if url = "a" then .ok ⟨200, [1]⟩ else .ok ⟨200, [2]⟩

def c3TA : TItem := toCandidate (0, 0, 0) c3WbA

def c3TB : TItem := toCandidate (0, 0, 0) c3WbB

/-- **C3, counterexample.**  The catalog returns descriptor A before
descriptor B; both tiles are fetched successfully with distinct bytes
and carry equal release timestamps; under a schedule in which worker 1
(holding B) completes before worker 0 (holding A), the 200 response
lists B before A — i.e. the tie between retained items is NOT broken by
catalog order. -/
theorem sort_ties_catalog_order_counterexample :
    GET (some "1") (some "1") none none (.ok [c3WbA, c3WbB]) (.ok [])
        tileZero c3Net [1, 0] =
      ⟨200, .okBody (⟨1, 0⟩, ⟨1, 0⟩) (some 15) (0, 0, 0) 2 [c3TB, c3TA] []⟩ ∧
    c3TA.releaseDatetime = c3TB.releaseDatetime ∧ c3TA ≠ c3TB := by
  exact ⟨by rfl, by decide, by decide⟩

/-- **C3, amended.**  The final sort is stable with ties broken by
completion order: whenever two retained items with equal release
timestamps were retained in the order `a` then `b` (i.e. `[a, b]` is a
sublist of the deduplicator's `uniqueItems`, which is populated in the
order tile fetches complete), they appear in that same order in the
response timeline.  Completion order need not match catalog order. -/
theorem sort_ties_completion_order (net : Network) (raw : List TItem)
    (c : Nat) (sched : List Nat) (a b : TItem)
    (h1 : [a, b].Sublist (processAll net (poolRun c raw sched).processed).items)
    (h2 : a.releaseDatetime = b.releaseDatetime) :
    [a, b].Sublist (dedupeTimelineByImage net raw c sched).1 :=
  List.pair_sublist_insertionSort (le_of_eq h2) h1

theorem sort_ties_completion_order_witness :
    [c3TB, c3TA].Sublist (processAll c3Net (poolRun 8 [c3TA, c3TB] [1, 0]).processed).items ∧
    [c3TB, c3TA].Sublist (dedupeTimelineByImage c3Net [c3TA, c3TB] 8 [1, 0]).1 := by
  have h1 : [c3TB, c3TA].Sublist
      (processAll c3Net (poolRun 8 [c3TA, c3TB] [1, 0]).processed).items := by decide
  exact ⟨h1, sort_ties_completion_order c3Net [c3TA, c3TB] 8 [1, 0] c3TB c3TA h1 (by decide)⟩

/-! ## C9: the worker-pool concurrency bound -/

theorem scanl_invariant {α σ : Type} (f : σ → α → σ) (P : σ → Prop)
    (hstep : ∀ s a, P s → P (f s a)) :
    ∀ (l : List α) (s0 : σ), P s0 → ∀ s ∈ l.scanl f s0, P s := by
  intro l
  induction l with
  | nil =>
    intro s0 h0 s hs
    simp [List.scanl] at hs
    exact hs ▸ h0
  | cons a l ih =>
    intro s0 h0 s hs
    rw [List.scanl] at hs
    rcases List.mem_cons.mp hs with hs | hs
    · exact hs ▸ h0
    · exact ih (f s0 a) (hstep s0 a h0) s hs

theorem poolStep_workers_length (s : PoolState) (w : Nat) :
    (poolStep s w).workers.length = s.workers.length := by
  unfold poolStep
  cases hw : s.workers[w]? with
  | none => rfl
  | some ow =>
    cases ow with
    | none => rfl
    | some it =>
      cases s.pending <;> simp [List.length_set]

theorem poolStates_workers_length (c : Nat) (raw : List TItem) (sched : List Nat) :
    ∀ s ∈ poolStates c raw sched, s.workers.length = c := by
  have hinit : (initPool c raw).workers.length = c := by
    simp [initPool]
  exact scanl_invariant poolStep (fun s => s.workers.length = c)
    (fun s w h => (poolStep_workers_length s w).trans h) sched (initPool c raw) hinit

/-- **C9.** In every state the worker pool reaches during the fetch
phase, the number of tile fetches simultaneously in flight never
exceeds the configured pool size of 8 workers (each worker holds at
most one pending fetch, claimed from the shared cursor). -/
theorem pool_concurrency_bound (raw : List TItem) (sched : List Nat)
    (s : PoolState) (h : s ∈ poolStates 8 raw sched) : inFlight s ≤ 8 := by
  have hlen := poolStates_workers_length 8 raw sched s h
  calc inFlight s ≤ s.workers.length := List.countP_le_length Option.isSome
    _ = 8 := hlen

def c9Item : TItem := ⟨1, "d", 100, "A", "u", "p"⟩

theorem pool_concurrency_bound_witness :
    poolRun 8 [c9Item] [] ∈ poolStates 8 [c9Item] [0] ∧
      inFlight (poolRun 8 [c9Item] []) ≤ 8 := by
  have h : poolRun 8 [c9Item] [] ∈ poolStates 8 [c9Item] [0] := by decide
  exact ⟨h, pool_concurrency_bound [c9Item] [0] (poolRun 8 [c9Item] []) h⟩

/-! ## The completed pool processes exactly the catalog items -/

/-- The multiset invariant carrier: candidates already processed,
candidates held by fetching workers, and candidates still pending. -/
def msState (s : PoolState) : List TItem :=
  s.processed ++ s.workers.filterMap id ++ s.pending

theorem filterMap_id_set_perm {α : Type} :
    ∀ (l : List (Option α)) (w : Nat) (it : α) (x : Option α),
      l[w]? = some (some it) →
      (it :: (l.set w x).filterMap id).Perm (x.toList ++ l.filterMap id) := by
  intro l
  induction l with
  | nil =>
    intro w it x h
    simp at h
  | cons o l ih =>
    intro w it x h
    cases w with
    | zero =>
      simp at h
      subst h
      rw [List.set_cons_zero]
      cases x with
      | none => simp [List.filterMap_cons]
      | some v =>
        simp only [List.filterMap_cons, Option.toList, List.singleton_append]
        exact List.Perm.swap v it (l.filterMap id)
    | succ w =>
      simp only [List.getElem?_cons_succ] at h
      rw [List.set_cons_succ]
      have hstep := ih w it x h
      cases o with
      | none =>
        simpa [List.filterMap_cons] using hstep
      | some v =>
        simp only [List.filterMap_cons]
        exact (List.Perm.swap v it ((l.set w x).filterMap id)).trans
          ((List.Perm.cons v hstep).trans List.perm_middle.symm)

theorem poolStep_msState_perm (s : PoolState) (w : Nat) :
    (msState (poolStep s w)).Perm (msState s) := by
  unfold poolStep
  cases hw : s.workers[w]? with
  | none => exact List.Perm.refl _
  | some ow =>
    cases ow with
    | none => exact List.Perm.refl _
    | some it =>
      cases hp : s.pending with
      | nil =>
        simp only [msState, List.append_nil, hp, List.append_assoc]
        refine List.Perm.append_left s.processed ?_
        have h := filterMap_id_set_perm s.workers w it none hw
        simpa using h
      | cons nxt rest =>
        simp only [msState, hp, List.append_assoc, List.singleton_append]
        refine List.Perm.append_left s.processed ?_
        have h := filterMap_id_set_perm s.workers w it (some nxt) hw
        have h1 : (it :: (s.workers.set w (some nxt)).filterMap id ++ rest).Perm
            ((nxt :: s.workers.filterMap id) ++ rest) :=
          List.Perm.append_right rest (by simpa using h)
        have h2 : (s.workers.filterMap id ++ nxt :: rest).Perm
            (nxt :: (s.workers.filterMap id ++ rest)) := List.perm_middle
        simpa using h1.trans h2.symm

theorem foldl_poolStep_msState_perm :
    ∀ (sched : List Nat) (s0 : PoolState),
      (msState (sched.foldl poolStep s0)).Perm (msState s0) := by
  intro sched
  induction sched with
  | nil => intro s0; exact List.Perm.refl _
  | cons w sched ih =>
    intro s0
    rw [List.foldl_cons]
    exact (ih (poolStep s0 w)).trans (poolStep_msState_perm s0 w)

theorem range_filterMap_getElem (raw : List TItem) :
    ∀ c : Nat, (List.range c).filterMap (fun k => raw[k]?) = raw.take c := by
  intro c
  induction c with
  | zero => simp
  | succ c ih =>
    rw [List.range_succ, List.filterMap_append, ih, List.take_succ]
    cases h : raw[c]? <;> simp [List.filterMap_cons, h]

theorem msState_initPool (c : Nat) (raw : List TItem) :
    msState (initPool c raw) = raw := by
  simp only [msState, initPool, List.nil_append]
  rw [List.filterMap_map]
  rw [show ((fun a => id a) ∘ fun k => raw[k]?) = (fun k => raw[k]?) from rfl]
  rw [range_filterMap_getElem raw c, List.take_append_drop]

/-- While candidates are still pending, some worker is fetching. -/
def PendingInv (s : PoolState) : Prop :=
  s.pending = [] ∨ ∃ o ∈ s.workers, o.isSome = true

theorem initPool_pendingInv (c : Nat) (raw : List TItem) (hc : 0 < c) :
    PendingInv (initPool c raw) := by
  cases hp : raw.drop c with
  | nil => exact Or.inl (by simp [initPool, hp])
  | cons nxt rest =>
    right
    have hlen : c < raw.length := by
      by_contra hle
      rw [List.drop_eq_nil_of_le (by omega)] at hp
      cases hp
    refine ⟨raw[0]?, ?_, ?_⟩
    · simp only [initPool]
      exact List.mem_map.mpr ⟨0, List.mem_range.mpr hc, rfl⟩
    · rw [List.getElem?_eq_getElem (by omega)]
      rfl

theorem poolStep_pendingInv (s : PoolState) (w : Nat) (h : PendingInv s) :
    PendingInv (poolStep s w) := by
  unfold poolStep
  cases hw : s.workers[w]? with
  | none => exact h
  | some ow =>
    cases ow with
    | none => exact h
    | some it =>
      cases hp : s.pending with
      | nil => exact Or.inl rfl
      | cons nxt rest =>
        right
        have hwlt : w < s.workers.length := by
          by_contra hge
          rw [List.getElem?_eq_none (by omega)] at hw
          cases hw
        refine ⟨some nxt, ?_, rfl⟩
        exact List.getElem?_mem (List.getElem?_set_self hwlt)

theorem foldl_poolStep_pendingInv :
    ∀ (sched : List Nat) (s0 : PoolState), PendingInv s0 →
      PendingInv (sched.foldl poolStep s0) := by
  intro sched
  induction sched with
  | nil => intro s0 h; exact h
  | cons w sched ih =>
    intro s0 h
    rw [List.foldl_cons]
    exact ih (poolStep s0 w) (poolStep_pendingInv s0 w h)

/-- A completed run of the pool has processed exactly the catalog
candidates (as a multiset): the completion order is a permutation of
`timelineRaw`. -/
theorem poolRun_processed_perm (c : Nat) (raw : List TItem) (sched : List Nat)
    (hc : 0 < c) (hcomp : completed (poolRun c raw sched) = true) :
    (poolRun c raw sched).processed.Perm raw := by
  have hnone : ∀ o ∈ (poolRun c raw sched).workers, o = none := by
    intro o ho
    have := List.all_eq_true.mp hcomp o ho
    exact Option.isNone_iff_eq_none.mp this
  have hfm : (poolRun c raw sched).workers.filterMap id = [] := by
    rw [List.filterMap_eq_nil_iff]
    intro o ho
    exact hnone o ho
  have hpend : (poolRun c raw sched).pending = [] := by
    have hinv := foldl_poolStep_pendingInv sched (initPool c raw)
      (initPool_pendingInv c raw hc)
    rcases hinv with hinv | ⟨o, ho, hsome⟩
    · exact hinv
    · rw [hnone o ho] at hsome
      cases hsome
  have hperm := foldl_poolStep_msState_perm sched (initPool c raw)
  rw [msState_initPool] at hperm
  have : msState (poolRun c raw sched) = (poolRun c raw sched).processed := by
    simp [msState, hfm, hpend]
  rw [poolRun] at this ⊢
  exact this ▸ hperm

/-! ## C4: isolation of per-tile fetch failures -/

/-- The error entry a candidate contributes (when its fetch fails). -/
def errEntry (net : Network) (it : TItem) : Option (String × String) :=
  match tileFetchResult net it with
  | none => some (it.tileUrl, "fetch-failed")
  | some _ => none

theorem processAll_errors_go (net : Network) :
    ∀ (order : List TItem) (hs : List String) (items : List TItem)
      (errs : List (String × String)),
      (order.foldl (processItem net) ⟨hs, items, errs⟩).errors =
        errs ++ order.filterMap (errEntry net) := by
  intro order
  induction order with
  | nil => intro hs items errs; simp
  | cons it rest ih =>
    intro hs items errs
    rw [List.foldl_cons]
    cases hfetch : tileFetchResult net it with
    | none =>
      rw [show processItem net ⟨hs, items, errs⟩ it =
        ⟨hs, items, errs ++ [(it.tileUrl, "fetch-failed")]⟩ from by
          simp [processItem, hfetch]]
      rw [ih]
      simp [errEntry, hfetch]
    | some b =>
      by_cases hmem : b64encode b ∈ hs
      · rw [show processItem net ⟨hs, items, errs⟩ it = ⟨hs, items, errs⟩ from by
          simp [processItem, hfetch, hmem]]
        rw [ih]
        simp [errEntry, hfetch]
      · rw [show processItem net ⟨hs, items, errs⟩ it =
          ⟨hs ++ [b64encode b], items ++ [it], errs⟩ from by
            simp [processItem, hfetch, hmem]]
        rw [ih]
        simp [errEntry, hfetch]

theorem processAll_errors (net : Network) (order : List TItem) :
    (processAll net order).errors = order.filterMap (errEntry net) := by
  have h := processAll_errors_go net order [] [] []
  simpa [processAll] using h

theorem filterMap_eq_replicate_count {α β : Type} [DecidableEq α]
    (f : α → Option β) (K : α) (e : β) (hK : f K = some e) :
    ∀ p : List α, (∀ it ∈ p, it ≠ K → f it = none) →
      p.filterMap f = List.replicate (p.count K) e := by
  intro p
  induction p with
  | nil => intro _; simp
  | cons a p ih =>
    intro h
    by_cases ha : a = K
    · subst ha
      rw [List.filterMap_cons, hK, List.count_cons]
      rw [show (if (a == a) = true then 1 else 0) = 1 from by simp]
      rw [List.replicate_succ]
      exact congrArg (List.cons e)
        (ih (fun it hit hne => h it (List.mem_cons_of_mem a hit) hne))
    · rw [List.filterMap_cons, h a (List.mem_cons_self a p) ha, List.count_cons]
      simp only [beq_iff_eq, ha, if_neg, if_false]
      exact ih (fun it hit hne => h it (List.mem_cons_of_mem a hit) hne)

theorem fetchedSuccesses_eq (net : Network) (K : TItem) (bytes : TItem → Bytes)
    (hfail : tileFetchResult net K = none) :
    ∀ p : List TItem, (∀ it ∈ p, it ≠ K → tileFetchResult net it = some (bytes it)) →
      fetchedSuccesses net p =
        (p.filter (fun it => it ≠ K)).map (fun it => (it, bytes it)) := by
  intro p
  induction p with
  | nil => intro _; simp [fetchedSuccesses]
  | cons a p ih
  =>
    intro h
    have htail : ∀ it ∈ p, it ≠ K → tileFetchResult net it = some (bytes it) :=
      fun it hit hne => h it (List.mem_cons_of_mem a hit) hne
    by_cases ha : a = K
    · subst ha
      simp only [fetchedSuccesses, List.filterMap_cons, hfail, Option.map_none]
      rw [show List.filter (fun it => decide (it ≠ a)) (a :: p) =
        List.filter (fun it => decide (it ≠ a)) p from by simp [List.filter_cons]]
      exact ih htail
    · have hfa : tileFetchResult net a = some (bytes a) :=
        h a (List.mem_cons_self a p) ha
      simp only [fetchedSuccesses, List.filterMap_cons, hfa, Option.map_some]
      rw [show List.filter (fun it => decide (it ≠ K)) (a :: p) =
        a :: List.filter (fun it => decide (it ≠ K)) p from by simp [List.filter_cons, ha]]
      rw [List.map_cons]
      exact congrArg (List.cons (a, bytes a)) (ih htail)

theorem keepFirstByBytes_of_pairwise_ne :
    ∀ (l : List (TItem × Bytes)) (seen : List Bytes),
      (∀ pr ∈ l, pr.2 ∉ seen) →
      l.Pairwise (fun pr qr => pr.2 ≠ qr.2) →
      keepFirstByBytes seen l = l.map Prod.fst := by
  intro l
  induction l with
  | nil => intro seen _ _; rfl
  | cons pr l ih =>
    intro seen hseen hpw
    obtain ⟨it, b⟩ := pr
    rw [keepFirstByBytes]
    rw [if_neg (hseen (it, b) (List.mem_cons_self _ l))]
    rw [List.map_cons]
    refine congrArg (List.cons it) (ih (seen ++ [b]) ?_ (List.Pairwise.sublist (List.sublist_cons_self _ l) hpw))
    intro qr hqr hmem
    rcases List.mem_append.mp hmem with hmem | hmem
    · exact hseen qr (List.mem_cons_of_mem _ hqr) hmem
    · have hb : qr.2 = b := by simpa using hmem
      exact (List.pairwise_cons.mp hpw).1 qr hqr hb.symm

/-- Unfolding of the handler on the success path. -/
theorem GET_ok (latP lngP zoomP modeP : Option String)
    (catalogAll catalogLocal : Except String (List WaybackItem))
    (tileOf : JSDec → JSDec → Option Int → Int × Int × Int)
    (net : Network) (sched : List Nat) (snaps : List WaybackItem)
    (hlat : jsFalsy (jsParseFloat (jsOr latP "0")) = false)
    (hlng : jsFalsy (jsParseFloat (jsOr lngP "0")) = false)
    (hcat : wayback (jsOr modeP "all") catalogAll catalogLocal = .ok snaps) :
    GET latP lngP zoomP modeP catalogAll catalogLocal tileOf net sched =
      ⟨200, .okBody ((jsParseFloat (jsOr latP "0")).getD ⟨0, 0⟩,
          (jsParseFloat (jsOr lngP "0")).getD ⟨0, 0⟩)
        (jsParseInt (jsOr zoomP "15"))
        (tileOf ((jsParseFloat (jsOr latP "0")).getD ⟨0, 0⟩)
          ((jsParseFloat (jsOr lngP "0")).getD ⟨0, 0⟩) (jsParseInt (jsOr zoomP "15")))
        (dedupeTimelineByImage net
          (snaps.map (toCandidate (tileOf ((jsParseFloat (jsOr latP "0")).getD ⟨0, 0⟩)
            ((jsParseFloat (jsOr lngP "0")).getD ⟨0, 0⟩)
            (jsParseInt (jsOr zoomP "15"))))) 8 sched).1.length
        (dedupeTimelineByImage net
          (snaps.map (toCandidate (tileOf ((jsParseFloat (jsOr latP "0")).getD ⟨0, 0⟩)
            ((jsParseFloat (jsOr lngP "0")).getD ⟨0, 0⟩)
            (jsParseInt (jsOr zoomP "15"))))) 8 sched).1
        (dedupeTimelineByImage net
          (snaps.map (toCandidate (tileOf ((jsParseFloat (jsOr latP "0")).getD ⟨0, 0⟩)
            ((jsParseFloat (jsOr lngP "0")).getD ⟨0, 0⟩)
            (jsParseInt (jsOr zoomP "15"))))) 8 sched).2⟩ := by
  simp only [GET, hlat, hlng, Bool.or_self, Bool.false_eq_true, if_false, hcat]

/-- **C4.** A permanently failing tile never escalates: with one
candidate K whose fetch fails on every attempt and every other
candidate fetching successfully (with pairwise-distinct tile bytes),
any completed run of the pool yields exactly one error entry for K, a
timeline containing every other candidate and not K, and — for any
request that reaches the fetch phase with this candidate list — a 200
response whose `count` is the length of its `timeline`. -/
theorem failed_tile_is_isolated (net : Network) (raw : List TItem)
    (sched : List Nat) (K : TItem) (bytes : TItem → Bytes)
    (hnet : ValidNet net)
    (hnodup : raw.Nodup)
    (hKmem : K ∈ raw)
    (hcomp : completed (poolRun 8 raw sched) = true)
    (hfail : tileFetchResult net K = none)
    (hsucc : ∀ it ∈ raw, it ≠ K → tileFetchResult net it = some (bytes it))
    (hdist : ∀ it1 ∈ raw, ∀ it2 ∈ raw, it1 ≠ it2 → bytes it1 ≠ bytes it2) :
    (dedupeTimelineByImage net raw 8 sched).2 = [(K.tileUrl, "fetch-failed")] ∧
    (∀ it ∈ raw, it ≠ K → it ∈ (dedupeTimelineByImage net raw 8 sched).1) ∧
    K ∉ (dedupeTimelineByImage net raw 8 sched).1 ∧
    (∀ (latP lngP zoomP modeP : Option String)
      (catalogAll catalogLocal : Except String (List WaybackItem))
      (tileOf : JSDec → JSDec → Option Int → Int × Int × Int)
      (snaps : List WaybackItem),
      jsFalsy (jsParseFloat (jsOr latP "0")) = false →
      jsFalsy (jsParseFloat (jsOr lngP "0")) = false →
      wayback (jsOr modeP "all") catalogAll catalogLocal = .ok snaps →
      snaps.map (toCandidate (tileOf ((jsParseFloat (jsOr latP "0")).getD ⟨0, 0⟩)
        ((jsParseFloat (jsOr lngP "0")).getD ⟨0, 0⟩)
        (jsParseInt (jsOr zoomP "15")))) = raw →
      GET latP lngP zoomP modeP catalogAll catalogLocal tileOf net sched =
        ⟨200, .okBody ((jsParseFloat (jsOr latP "0")).getD ⟨0, 0⟩,
            (jsParseFloat (jsOr lngP "0")).getD ⟨0, 0⟩)
          (jsParseInt (jsOr zoomP "15"))
          (tileOf ((jsParseFloat (jsOr latP "0")).getD ⟨0, 0⟩)
            ((jsParseFloat (jsOr lngP "0")).getD ⟨0, 0⟩) (jsParseInt (jsOr zoomP "15")))
          (dedupeTimelineByImage net raw 8 sched).1.length
          (dedupeTimelineByImage net raw 8 sched).1
          (dedupeTimelineByImage net raw 8 sched).2⟩) := by
  have hperm : (poolRun 8 raw sched).processed.Perm raw :=
    poolRun_processed_perm 8 raw sched (by omega) hcomp
  have hmem : ∀ it : TItem, it ∈ (poolRun 8 raw sched).processed ↔ it ∈ raw :=
    fun it => hperm.mem_iff
  -- errors
  have herrK : errEntry net K = some (K.tileUrl, "fetch-failed") := by
    simp [errEntry, hfail]
  have herrs : (dedupeTimelineByImage net raw 8 sched).2 =
      [(K.tileUrl, "fetch-failed")] := by
    have h1 : (dedupeTimelineByImage net raw 8 sched).2 =
        (poolRun 8 raw sched).processed.filterMap (errEntry net) := by
      rw [show (dedupeTimelineByImage net raw 8 sched).2 =
        (processAll net (poolRun 8 raw sched).processed).errors from rfl]
      exact processAll_errors net _
    rw [h1, filterMap_eq_replicate_count (errEntry net) K _ herrK _
      (fun it hit hne => by
        simp [errEntry, hsucc it ((hmem it).mp hit) hne])]
    rw [hperm.count_eq K, List.count_eq_one_of_mem hnodup hKmem]
    rfl
  -- items
  have hitems : (processAll net (poolRun 8 raw sched).processed).items =
      (poolRun 8 raw sched).processed.filter (fun it => decide (it ≠ K)) := by
    have hgo := processAll_items_go net hnet (poolRun 8 raw sched).processed [] [] []
      (by intro x hx; cases hx)
    have hk := fetchedSuccesses_eq net K bytes hfail (poolRun 8 raw sched).processed
      (fun it hit hne => hsucc it ((hmem it).mp hit) hne)
    have hpnodup : (poolRun 8 raw sched).processed.Nodup := hperm.nodup_iff.mpr hnodup
    have hpw : ((poolRun 8 raw sched).processed.filter
        (fun it => decide (it ≠ K))).Pairwise (fun a b => bytes a ≠ bytes b) := by
      refine List.Pairwise.imp_of_mem ?_ ((hpnodup.filter _) : List.Pairwise _ _)
      intro a b ha hb hne
      exact hdist a ((hmem a).mp (List.mem_filter.mp ha).1)
        b ((hmem b).mp (List.mem_filter.mp hb).1) hne
    have hkeep := keepFirstByBytes_of_pairwise_ne
      (((poolRun 8 raw sched).processed.filter
        (fun it => decide (it ≠ K))).map (fun it => (it, bytes it))) []
      (by intro pr _ hmem2; cases hmem2)
      (by
        rw [List.pairwise_map]
        exact hpw)
    have hgo2 : (processAll net (poolRun 8 raw sched).processed).items =
        keepFirstByBytes [] (fetchedSuccesses net (poolRun 8 raw sched).processed) := by
      simpa [processAll] using hgo
    rw [hgo2, hk, hkeep, List.map_map]
    rw [show (Prod.fst ∘ fun it : TItem => (it, bytes it)) = id from rfl]
    exact List.map_id _
  refine ⟨herrs, ?_, ?_, ?_⟩
  · intro it hit hne
    rw [show (dedupeTimelineByImage net raw 8 sched).1 =
      (processAll net (poolRun 8 raw sched).processed).items.insertionSort rdLeRel from rfl]
    rw [List.mem_insertionSort, hitems, List.mem_filter]
    exact ⟨(hmem it).mpr hit, by simpa using hne⟩
  · rw [show (dedupeTimelineByImage net raw 8 sched).1 =
      (processAll net (poolRun 8 raw sched).processed).items.insertionSort rdLeRel from rfl]
    rw [List.mem_insertionSort, hitems, List.mem_filter]
    simp
  · intro latP lngP zoomP modeP catalogAll catalogLocal tileOf snaps hlat hlng hcat hraw
    have h := GET_ok latP lngP zoomP modeP catalogAll catalogLocal tileOf net sched
      snaps hlat hlng hcat
    rw [hraw] at h
    exact h

def c4A : TItem := ⟨1, "d1", 100, "A", "a", "p"⟩

def c4B : TItem := ⟨2, "d2", 200, "B", "b", "p"⟩

def c4K : TItem := ⟨3, "d3", 300, "K", "k", "p"⟩

def c4Net : Network := fun url _ =>
  if url = "k" then .error "network down"
  else if url = "a" then .ok ⟨200, [1]⟩
  else .ok ⟨200, [2]⟩

def c4Bytes : TItem → Bytes := fun it =>
  if it = c4A then [1] else if it = c4B then [2] else [3]

theorem failed_tile_is_isolated_witness :
    completed (poolRun 8 [c4A, c4B, c4K] [0, 1, 2]) = true ∧
    (dedupeTimelineByImage c4Net [c4A, c4B, c4K] 8 [0, 1, 2]).2 =
      [(c4K.tileUrl, "fetch-failed")] ∧
    (∀ it ∈ [c4A, c4B, c4K], it ≠ c4K →
      it ∈ (dedupeTimelineByImage c4Net [c4A, c4B, c4K] 8 [0, 1, 2]).1) ∧
    c4K ∉ (dedupeTimelineByImage c4Net [c4A, c4B, c4K] 8 [0, 1, 2]).1 := by
  have hnet : ValidNet c4Net := by
    intro url i r h
    unfold c4Net at h
    split at h
    · exact Except.noConfusion h
    · split at h
      · injection h with h2
        subst h2
        intro x hx
        simp at hx
        omega
      · injection h with h2
        subst h2
        intro x hx
        simp at hx
        omega
  have h := failed_tile_is_isolated c4Net [c4A, c4B, c4K] [0, 1, 2] c4K c4Bytes
    hnet (by decide) (by decide) (by decide) (by decide) (by decide) (by decide)
  exact ⟨by decide, h.1, h.2.1, h.2.2.1⟩

/-! ## C5: the per-tile retry policy -/

/-- **C5.** `fetchWithRetry` under the route's defaults (3 attempts,
250 ms base delay): when attempts 1 and 2 fail (non-2xx response or
network failure alike) and attempt 3 resolves 2xx, the call returns the
third attempt's bytes after backoff waits of exactly `250 * 1` and
`250 * 2` milliseconds; on any oracle at most 3 attempts are made; and
a tile that succeeds this way is placed in the timeline, with no error
entry recorded. -/
theorem retry_two_failures_then_success (net : Nat → AttemptResult) (r : JSResponse)
    (h1 : attemptFails (net 1) = true) (h2 : attemptFails (net 2) = true)
    (h3 : net 3 = .ok r) (hok : respOk r = true) :
    fetchWithRetry net 3 250 = ⟨some r.body, [250, 500], 3⟩ ∧
    (∀ net2 : Nat → AttemptResult, (fetchWithRetry net2 3 250).attemptsUsed ≤ 3) ∧
    (∀ (netw : Network) (it : TItem), (∀ i, netw it.tileUrl i = net i) →
      dedupeTimelineByImage netw [it] 8 [0] = ([it], [])) := by
  have hmain : fetchWithRetry net 3 250 = ⟨some r.body, [250, 500], 3⟩ := by
    cases hn1 : net 1 with
    | error e1 =>
      cases hn2 : net 2 with
      | error e2 =>
        simp [fetchWithRetry, fetchAttempts, hn1, hn2, h3, hok]
      | ok r2 =>
        have hr2 : respOk r2 = false := by
          rw [hn2] at h2
          simpa [attemptFails] using h2
        simp [fetchWithRetry, fetchAttempts, hn1, hn2, hr2, h3, hok]
    | ok r1 =>
      have hr1 : respOk r1 = false := by
        rw [hn1] at h1
        simpa [attemptFails] using h1
      cases hn2 : net 2 with
      | error e2 =>
        simp [fetchWithRetry, fetchAttempts, hn1, hr1, hn2, h3, hok]
      | ok r2 =>
        have hr2 : respOk r2 = false := by
          rw [hn2] at h2
          simpa [attemptFails] using h2
        simp [fetchWithRetry, fetchAttempts, hn1, hr1, hn2, hr2, h3, hok]
  refine ⟨hmain, fun net2 => fetchAttempts_attemptsUsed_le net2 3 250 1 3, ?_⟩
  intro netw it hagree
  have hfun : netw it.tileUrl = net := funext hagree
  have hfr : tileFetchResult netw it = some r.body := by
    unfold tileFetchResult
    rw [hfun, hmain]
  have hproc : (poolRun 8 [it] [0]).processed = [it] := rfl
  rw [show dedupeTimelineByImage netw [it] 8 [0] =
    ((processAll netw (poolRun 8 [it] [0]).processed).items.insertionSort rdLeRel,
     (processAll netw (poolRun 8 [it] [0]).processed).errors) from rfl]
  rw [hproc]
  rw [show processAll netw [it] = processItem netw ⟨[], [], []⟩ it from rfl]
  simp [processItem, hfr, List.insertionSort]

def c5Net : Nat → AttemptResult := fun i =>
  if i = 1 then .ok ⟨500, []⟩
  else if i = 2 then .error "boom"
  else .ok ⟨200, [9]⟩

def c5Item : TItem := ⟨1, "d", 100, "A", "u", "p"⟩

def c5Netw : Network := fun _ i => c5Net i

theorem retry_two_failures_then_success_witness :
    attemptFails (c5Net 1) = true ∧ attemptFails (c5Net 2) = true ∧
    fetchWithRetry c5Net 3 250 = ⟨some [9], [250, 500], 3⟩ ∧
    dedupeTimelineByImage c5Netw [c5Item] 8 [0] = ([c5Item], []) := by
  have h := retry_two_failures_then_success c5Net ⟨200, [9]⟩
    (by decide) (by decide) rfl (by decide)
  exact ⟨by decide, by decide, h.1, h.2.2 c5Netw c5Item (fun i => rfl)⟩

/-! ## C6: validation of lat/lng -/

theorem falsyParam (p : Option String)
    (h : p = none ∨ ∃ s d, p = some s ∧ jsParseFloat s = some d ∧ d.mant = 0) :
    jsFalsy (jsParseFloat (jsOr p "0")) = true := by
  rcases h with h | ⟨s, d, hp, hparse, hmant⟩
  · subst h
    decide
  · subst hp
    by_cases hs : s = ""
    · subst hs
      rw [show jsParseFloat "" = none from rfl] at hparse
      cases hparse
    · rw [show jsOr (some s) "0" = s from by simp [jsOr, hs]]
      rw [hparse]
      simp [jsFalsy, hmant]

/-- **C6.** Whenever the `lat` or the `lng` query parameter is absent,
or is present and parses to the falsy number 0, the handler answers
400 with body `{ error: "Missing latitude or longitude" }` — and this
response is the same for every catalog outcome, tile network and
schedule, i.e. neither the catalog client nor any tile fetch
contributes to it. -/
theorem missing_latlng_400 (latP lngP zoomP modeP : Option String)
    (h : (latP = none ∨ ∃ s d, latP = some s ∧ jsParseFloat s = some d ∧ d.mant = 0) ∨
         (lngP = none ∨ ∃ s d, lngP = some s ∧ jsParseFloat s = some d ∧ d.mant = 0)) :
    ∀ (catalogAll catalogLocal : Except String (List WaybackItem))
      (tileOf : JSDec → JSDec → Option Int → Int × Int × Int)
      (net : Network) (sched : List Nat),
      GET latP lngP zoomP modeP catalogAll catalogLocal tileOf net sched =
        ⟨400, .errorBody "Missing latitude or longitude"⟩ := by
  intro catalogAll catalogLocal tileOf net sched
  rcases h with hl | hr
  · simp only [GET, falsyParam latP hl, Bool.true_or, if_pos]
  · simp only [GET, falsyParam lngP hr, Bool.or_true, if_pos]

def c6Net : Network := fun _ _ => .error "never reached"

theorem missing_latlng_400_witness :
    GET none (some "2.35") none none (.error "catalog down") (.ok [])
        tileZero c6Net [0, 1, 2] =
      ⟨400, .errorBody "Missing latitude or longitude"⟩ ∧
    GET (some "10") (some "0.0") none none (.ok []) (.ok [])
        tileZero c6Net [] =
      ⟨400, .errorBody "Missing latitude or longitude"⟩ := by
  refine ⟨missing_latlng_400 none (some "2.35") none none (Or.inl (Or.inl rfl))
    (.error "catalog down") (.ok []) tileZero c6Net [0, 1, 2], ?_⟩
  exact missing_latlng_400 (some "10") (some "0.0") none none
    (Or.inr (Or.inr ⟨"0.0", ⟨0, 1⟩, rfl, by decide, rfl⟩))
    (.ok []) (.ok []) tileZero c6Net []

/-! ## C7: catalog failure → 500 -/

def c7Net : Network := fun _ _ => .error "never reached"

/-- **C7, counterexample.**  On a request with valid coordinates whose
catalog call throws, the handler answers 500 — but the JSON body is
`{ error: "Failed to fetch wayback imagery" }`, not
`{ error: "Failed to fetch imagery" }` as the claim states. -/
theorem catalog_error_500_counterexample :
    GET (some "47.5") (some "9.7") none none (.error "boom") (.ok [])
        tileZero c7Net [] =
      ⟨500, .errorBody "Failed to fetch wayback imagery"⟩ ∧
    GET (some "47.5") (some "9.7") none none (.error "boom") (.ok [])
        tileZero c7Net [] ≠
      ⟨500, .errorBody "Failed to fetch imagery"⟩ := by
  exact ⟨by rfl, by decide⟩

/-- **C7, amended.**  On any unhandled exception from the catalog
client, the handler returns status 500 with JSON body
`{ error: "Failed to fetch wayback imagery" }`; no partial payload is
produced (the oracles for tiles and scheduling are never consulted). -/
theorem catalog_error_500 (latP lngP zoomP modeP : Option String)
    (catalogAll catalogLocal : Except String (List WaybackItem))
    (tileOf : JSDec → JSDec → Option Int → Int × Int × Int)
    (net : Network) (sched : List Nat) (e : String)
    (hlat : jsFalsy (jsParseFloat (jsOr latP "0")) = false)
    (hlng : jsFalsy (jsParseFloat (jsOr lngP "0")) = false)
    (hcat : wayback (jsOr modeP "all") catalogAll catalogLocal = .error e) :
    GET latP lngP zoomP modeP catalogAll catalogLocal tileOf net sched =
      ⟨500, .errorBody "Failed to fetch wayback imagery"⟩ := by
  simp only [GET, hlat, hlng, Bool.or_self, Bool.false_eq_true, if_false, hcat]

theorem catalog_error_500_witness :
    GET (some "1.5") (some "-3") (some "12") (some "changes") (.ok [])
        (.error "catalog threw") tileZero c7Net [1, 2] =
      ⟨500, .errorBody "Failed to fetch wayback imagery"⟩ :=
  catalog_error_500 (some "1.5") (some "-3") (some "12") (some "changes")
    (.ok []) (.error "catalog threw") tileZero c7Net [1, 2] "catalog threw"
    (by decide) (by decide) rfl

/-! ## C8: the tile coordinate resolver formula -/

/-- **C8.** For every latitude, longitude and zoom, the resolver
returns exactly `x = floor(2^zoom * (lng + 180) / 360)`,
`y = floor(2^zoom * (1 - log(tan latRad + 1/cos latRad) / pi) / 2)`
with `latRad = lat * pi / 180`, and `z = zoom`.  The function is total
on all real inputs — no clamping and no error path exists for
degenerate inputs (poles, zoom 0). -/
theorem resolver_formula (lat lng : ℝ) (zoom : Int) :
    latLngToTile lat lng zoom = resolverClaimed lat lng zoom := by
  unfold latLngToTile resolverClaimed
  refine congrArg₂ Prod.mk ?_ (congrArg₂ Prod.mk rfl rfl)
  exact congrArg Int.floor (by ring)

/-! ## C10: template substitution touches only the first occurrence -/

theorem replaceOnce_first (pat rep : List Char) (hpat : pat.head? = some '{') :
    ∀ (a b : List Char), '{' ∉ a →
      replaceOnce pat rep (a ++ pat ++ b) = a ++ rep ++ b := by
  intro a
  induction a with
  | nil =>
    intro b _
    simp only [List.nil_append]
    cases pat with
    | nil => cases hpat
    | cons p0 pt =>
      rw [List.cons_append, replaceOnce.eq_2]
      rw [if_pos (List.isPrefixOf_iff_prefix.mpr ⟨b, by simp⟩)]
      simp [List.drop_succ_cons, List.drop_left]
  | cons c a ih =>
    intro b hc
    have hcne : c ≠ '{' := fun h => hc (h ▸ List.mem_cons_self c a)
    have hnp : ¬ pat.isPrefixOf (c :: (a ++ pat ++ b)) = true := by
      intro hpre
      obtain ⟨t, ht⟩ := List.isPrefixOf_iff_prefix.mp hpre
      cases pat with
      | nil => cases hpat
      | cons p0 pt =>
        simp only [List.head?_cons, Option.some.injEq] at hpat
        rw [List.cons_append] at ht
        injection ht with hh _
        exact hcne (hh ▸ hpat)
    show replaceOnce pat rep (c :: (a ++ pat ++ b)) = c :: (a ++ rep ++ b)
    rw [replaceOnce.eq_2, if_neg hnp]
    rw [ih b (fun h => hc (List.mem_cons_of_mem c h))]

/-- **C10.** When a URL template repeats its placeholders, the
materializer substitutes only the FIRST occurrence of each of
`{level}`, `{row}`, `{col}`; every later occurrence survives as
literal text (here: a template carrying each placeholder twice, with
arbitrary placeholder-free segments in between). -/
theorem url_template_first_occurrence_only
    (x y z : Int) (a0 a1 a2 a3 a4 a5 a6 : List Char)
    (h0 : '{' ∉ a0) (h1 : '{' ∉ a1) (h2 : '{' ∉ a2)
    (hz : '{' ∉ (toString z).data) (hy : '{' ∉ (toString y).data) :
    materializeUrl (String.mk (a0 ++ "{level}".data ++ a1 ++ "{row}".data ++ a2 ++
        "{col}".data ++ a3 ++ "{level}".data ++ a4 ++ "{row}".data ++ a5 ++
        "{col}".data ++ a6)) (x, y, z) =
      String.mk (a0 ++ (toString z).data ++ a1 ++ (toString y).data ++ a2 ++
        (toString x).data ++ a3 ++ "{level}".data ++ a4 ++ "{row}".data ++ a5 ++
        "{col}".data ++ a6) := by
  show String.mk (replaceOnce "{col}".data (toString x).data
    (replaceOnce "{row}".data (toString y).data
      (replaceOnce "{level}".data (toString z).data
        (a0 ++ "{level}".data ++ a1 ++ "{row}".data ++ a2 ++ "{col}".data ++ a3 ++
          "{level}".data ++ a4 ++ "{row}".data ++ a5 ++ "{col}".data ++ a6)))) = _
  refine congrArg String.mk ?_
  rw [show a0 ++ "{level}".data ++ a1 ++ "{row}".data ++ a2 ++ "{col}".data ++ a3 ++
      "{level}".data ++ a4 ++ "{row}".data ++ a5 ++ "{col}".data ++ a6 =
    a0 ++ "{level}".data ++ (a1 ++ "{row}".data ++ a2 ++ "{col}".data ++ a3 ++
      "{level}".data ++ a4 ++ "{row}".data ++ a5 ++ "{col}".data ++ a6) from by
    simp [List.append_assoc]]
  rw [replaceOnce_first "{level}".data (toString z).data (by decide) a0
    (a1 ++ "{row}".data ++ a2 ++ "{col}".data ++ a3 ++ "{level}".data ++ a4 ++
      "{row}".data ++ a5 ++ "{col}".data ++ a6) h0]
  rw [show a0 ++ (toString z).data ++ (a1 ++ "{row}".data ++ a2 ++ "{col}".data ++ a3 ++
      "{level}".data ++ a4 ++ "{row}".data ++ a5 ++ "{col}".data ++ a6) =
    a0 ++ (toString z).data ++ a1 ++ "{row}".data ++ (a2 ++ "{col}".data ++ a3 ++
      "{level}".data ++ a4 ++ "{row}".data ++ a5 ++ "{col}".data ++ a6) from by
    simp [List.append_assoc]]
  rw [replaceOnce_first "{row}".data (toString y).data (by decide)
    (a0 ++ (toString z).data ++ a1)
    (a2 ++ "{col}".data ++ a3 ++ "{level}".data ++ a4 ++ "{row}".data ++ a5 ++
      "{col}".data ++ a6)
    (by simp [List.mem_append, h0, h1, hz])]
  rw [show a0 ++ (toString z).data ++ a1 ++ (toString y).data ++ (a2 ++ "{col}".data ++
      a3 ++ "{level}".data ++ a4 ++ "{row}".data ++ a5 ++ "{col}".data ++ a6) =
    a0 ++ (toString z).data ++ a1 ++ (toString y).data ++ a2 ++ "{col}".data ++
      (a3 ++ "{level}".data ++ a4 ++ "{row}".data ++ a5 ++ "{col}".data ++ a6) from by
    simp [List.append_assoc]]
  rw [replaceOnce_first "{col}".data (toString x).data (by decide)
    (a0 ++ (toString z).data ++ a1 ++ (toString y).data ++ a2)
    (a3 ++ "{level}".data ++ a4 ++ "{row}".data ++ a5 ++ "{col}".data ++ a6)
    (by simp [List.mem_append, h0, h1, h2, hz, hy])]
  simp [List.append_assoc]

theorem url_template_first_occurrence_only_witness :
    materializeUrl "t/{level}/{row}/{col}/{level}-{row}-{col}" (5, 6, 7) =
      "t/7/6/5/{level}-{row}-{col}" := by
  have h := url_template_first_occurrence_only 5 6 7 "t/".data "/".data "/".data
    "/".data "-".data "-".data "".data (by decide) (by decide) (by decide)
    (by decide) (by decide)
  rw [show ("t/{level}/{row}/{col}/{level}-{row}-{col}" : String) =
    String.mk ("t/".data ++ "{level}".data ++ "/".data ++ "{row}".data ++ "/".data ++
      "{col}".data ++ "/".data ++ "{level}".data ++ "-".data ++ "{row}".data ++
      "-".data ++ "{col}".data ++ "".data) from by decide]
  rw [h]
  decide
